import Mathlib

/-!
Verification of the request engine of the `http_req` crate
(`src/request.rs`).  The byte-level scanner `copy_until`, the
`RequestBuilder` / `Request` pair and their operations are embedded as
executable Lean functions; the collaborators that live outside the file
under verification (the `Uri` value, the `Headers` collection, the
`Response` value and the `CR_LF_2` terminator from the response module)
are modelled from the design document's collaborator contracts.

Byte sources and sinks are modelled as in-memory byte lists with
`std::io::Cursor` semantics: a read returns as many bytes as requested
when available, otherwise whatever remains, and end-of-data is clean
(reads past the end return zero bytes, not an error).
-/

/-- Embeds the `CR_LF` constant of `src/request.rs`. -/
def CR_LF : String := "\r\n"

/-- Embeds the `HTTP_V` constant of `src/request.rs`. -/
def HTTP_V : String := "HTTP/1.1"

/-- Modelled from the spec: `CR_LF_2`, the two-consecutive-CRLF
header-block terminator imported from the response module (that module is
not part of the verified file). -/
def CR_LF_2 : List Nat := [13, 10, 13, 10]

/-- Outcome of a `copy_until` run over an in-memory source.  `ok read
written rest` records the returned byte count, the bytes written to the
sink and the bytes left unconsumed on the source; `panicked` records the
slice-index panic that the tail comparison `&buf[(buf.len() -
val.len())..]` raises when fewer bytes than `val.len()` have been
accumulated. -/
inductive ScanResult where
  | ok (read : Nat) (written : List Nat) (rest : List Nat)
  | panicked
deriving DecidableEq

/-- Embeds the `for byte in reader.bytes()` loop of `copy_until`: one
byte is appended to `buf`, then the trailing `val.length` bytes of the
buffer are compared against `val`; on a match the loop breaks.  The
comparison first computes `buf.len() - val.len()` in unsigned arithmetic,
so it panics when the buffer is still shorter than `val`. -/
def copyUntilLoop (val : List Nat) : List Nat → List Nat → Nat → ScanResult
  | buf, [], read => ScanResult.ok read buf []
  | buf, b :: rest, read =>
    if (buf ++ [b]).length < val.length then ScanResult.panicked
    else if (buf ++ [b]).drop ((buf ++ [b]).length - val.length) = val then
      ScanResult.ok (read + 1) (buf ++ [b]) rest
    else copyUntilLoop val (buf ++ [b]) rest (read + 1)

/-- Embeds `copy_until` of `src/request.rs`: a 10-byte probe read primes
the buffer (a cursor over `s` yields `min 10 s.length` bytes), then the
single-byte loop runs; finally the whole buffer is written to the sink
and the byte count returned. -/
def copyUntil (s val : List Nat) : ScanResult :=
  copyUntilLoop val (s.take (min 10 s.length)) (s.drop (min 10 s.length)) (min 10 s.length)

/-- The delimiter `D` occurs in the stream `s` with its last byte at
position `p` (one past the end, so the occurrence is `s[p - |D|..p]`). -/
def occursEndingAt (s D : List Nat) (p : Nat) : Prop :=
  D.length ≤ p ∧ p ≤ s.length ∧ (s.take p).drop (p - D.length) = D

instance occursEndingAt.instDecidable (s D : List Nat) (p : Nat) :
    Decidable (occursEndingAt s D p) := by
  unfold occursEndingAt
  infer_instance

/-- The stream `s` contains no occurrence of the delimiter `D`. -/
def noOccurrence (s D : List Nat) : Prop :=
  ∀ q, ¬ occursEndingAt s D q

/-- The stream `s` contains exactly one occurrence of `D`, ending at
position `p`. -/
def uniqueOccEndingAt (s D : List Nat) (p : Nat) : Prop :=
  occursEndingAt s D p ∧ ∀ q, occursEndingAt s D q → q = p

lemma occursEndingAt_le_length {s D : List Nat} {p : Nat}
    (h : occursEndingAt s D p) : p ≤ s.length := h.2.1

/-- Absence of occurrences is decidable through the bounded search over
positions `0 .. s.length`. -/
lemma noOccurrence_iff (s D : List Nat) :
    noOccurrence s D ↔ ∀ q ∈ List.range (s.length + 1), ¬ occursEndingAt s D q := by
  constructor
  · intro h q _
    exact h q
  · intro h q hq
    by_cases hle : q ≤ s.length
    · exact h q (List.mem_range.mpr (by omega)) hq
    · exact hle (occursEndingAt_le_length hq)

/-- Uniqueness of an occurrence is decidable through the bounded search
over positions `0 .. s.length`. -/
lemma uniqueOcc_iff (s D : List Nat) (p : Nat) :
    uniqueOccEndingAt s D p ↔
      occursEndingAt s D p ∧
        ∀ q ∈ List.range (s.length + 1), occursEndingAt s D q → q = p := by
  constructor
  · intro h
    exact ⟨h.1, fun q _ hq => h.2 q hq⟩
  · intro h
    refine ⟨h.1, fun q hq => ?_⟩
    have hle := occursEndingAt_le_length hq
    exact h.2 q (List.mem_range.mpr (by omega)) hq

example : occursEndingAt [1, 2, 3, 4] [2, 3] 3 := by decide

example : copyUntil [1, 2, 3] [2] = ScanResult.ok 3 [1, 2, 3] [] := by decide

/-- A one-past-the-end prefix extension: taking one more byte appends the
byte at the old boundary. -/
lemma take_succ_eq_append {s : List Nat} {m : Nat} (h : m < s.length) :
    s.take (m + 1) = s.take m ++ [s[m]] := by
  rw [List.take_succ, List.getElem?_eq_getElem h]
  rfl

/-- Length of a prefix that fits inside the stream. -/
lemma length_take_of_le {s : List Nat} {m : Nat} (h : m ≤ s.length) :
    (s.take m).length = m := by
  rw [List.length_take]
  omega

/-- Inversion of a successful loop run: the bytes written are the initial
buffer followed by some prefix of the remaining stream, the unconsumed
rest is the matching suffix, and the count grows by exactly the number of
bytes taken. -/
lemma copyUntilLoop_ok_inv (D : List Nat) :
    ∀ rest buf read n out rem,
      copyUntilLoop D buf rest read = ScanResult.ok n out rem →
      ∃ k, k ≤ rest.length ∧ out = buf ++ rest.take k ∧ rem = rest.drop k ∧
        n = read + k
  | [], buf, read, n, out, rem => by
    intro h
    simp only [copyUntilLoop] at h
    refine ⟨0, by simp, ?_, ?_, ?_⟩ <;> simp_all [ScanResult.ok.injEq]
  | b :: rest, buf, read, n, out, rem => by
    intro h
    simp only [copyUntilLoop] at h
    by_cases h1 : (buf ++ [b]).length < D.length
    · rw [if_pos h1] at h
      exact absurd h (by simp)
    · rw [if_neg h1] at h
      by_cases h2 : (buf ++ [b]).drop ((buf ++ [b]).length - D.length) = D
      · rw [if_pos h2] at h
        obtain ⟨hn, hout, hrem⟩ := ScanResult.ok.inj h
        exact ⟨1, by simp, by simp [← hout], by simp [← hrem], by omega⟩
      · rw [if_neg h2] at h
        obtain ⟨k, hk, hout, hrem, hn⟩ := copyUntilLoop_ok_inv D rest (buf ++ [b]) (read + 1) n out rem h
        refine ⟨k + 1, by simpa using hk, ?_, ?_, by omega⟩
        · rw [hout, List.take_succ_cons, List.append_assoc, List.singleton_append]
        · rw [hrem, List.drop_succ_cons]

/-- Specification of every successful `copy_until` run: the sink receives
exactly the first `n` bytes of the stream, the unconsumed rest is the
matching suffix, and the returned count equals the number of bytes
written. -/
lemma copyUntil_ok_spec {s D : List Nat} {n : Nat} {out rem : List Nat}
    (h : copyUntil s D = ScanResult.ok n out rem) :
    n ≤ s.length ∧ out = s.take n ∧ rem = s.drop n ∧ out.length = n := by
  unfold copyUntil at h
  obtain ⟨k, hk, hout, hrem, hn⟩ := copyUntilLoop_ok_inv D _ _ _ n out rem h
  rw [List.length_drop] at hk
  have hmin : min 10 s.length ≤ s.length := by omega
  have hns : n ≤ s.length := by omega
  refine ⟨hns, ?_, ?_, ?_⟩
  · rw [hout, hn, List.take_add]
  · rw [hrem, List.drop_drop, hn, Nat.add_comm]
  · rw [hout, List.length_append, length_take_of_le hmin, List.length_take,
      List.length_drop, hn]
    omega

/-- The loop never panics once the buffer is within one byte of the
delimiter length: every later buffer is longer still. -/
lemma copyUntilLoop_no_panic (D : List Nat) :
    ∀ rest buf read, D.length ≤ buf.length + 1 →
      copyUntilLoop D buf rest read ≠ ScanResult.panicked
  | [], buf, read => by
    intro _ h
    simp [copyUntilLoop] at h
  | b :: rest, buf, read => by
    intro hD h
    simp only [copyUntilLoop] at h
    rw [if_neg (by simp; omega)] at h
    by_cases h2 : (buf ++ [b]).drop ((buf ++ [b]).length - D.length) = D
    · rw [if_pos h2] at h
      simp at h
    · rw [if_neg h2] at h
      exact copyUntilLoop_no_panic D rest (buf ++ [b]) (read + 1) (by simp; omega) h

/-- When the only occurrences of the delimiter in the window `(m, m+k+1)`
are at its right end, the loop started on the buffer `s.take m` stops
exactly there: it consumes `s.take (m+k+1)` and leaves the rest. -/
lemma copyUntilLoop_reaches (s D : List Nat) :
    ∀ k m, m + k + 1 ≤ s.length → D.length ≤ m + 1 →
      (∀ q, m < q → q < m + k + 1 → ¬ occursEndingAt s D q) →
      occursEndingAt s D (m + k + 1) →
      copyUntilLoop D (s.take m) (s.drop m) m =
        ScanResult.ok (m + k + 1) (s.take (m + k + 1)) (s.drop (m + k + 1))
  | 0, m => by
    intro hle hD hno hocc
    simp only [Nat.add_zero] at hle hno hocc ⊢
    have hm : m < s.length := by omega
    rw [List.drop_eq_getElem_cons hm]
    simp only [copyUntilLoop]
    rw [← take_succ_eq_append hm]
    rw [length_take_of_le (by omega : m + 1 ≤ s.length)]
    rw [if_neg (by omega : ¬ (m + 1 < D.length))]
    rw [if_pos hocc.2.2]
  | k + 1, m => by
    intro hle hD hno hocc
    have hm : m < s.length := by omega
    rw [List.drop_eq_getElem_cons hm]
    simp only [copyUntilLoop]
    rw [← take_succ_eq_append hm]
    rw [length_take_of_le (by omega : m + 1 ≤ s.length)]
    rw [if_neg (by omega : ¬ (m + 1 < D.length))]
    have hnomatch : ¬ ((s.take (m + 1)).drop (m + 1 - D.length) = D) := by
      intro heq
      exact hno (m + 1) (by omega) (by omega) ⟨hD, by omega, heq⟩
    rw [if_neg hnomatch]
    have e1 : m + (k + 1) + 1 = m + 1 + k + 1 := by omega
    rw [e1]
    have hocc' : occursEndingAt s D (m + 1 + k + 1) := by
      rw [show m + 1 + k + 1 = m + (k + 1) + 1 by omega]
      exact hocc
    exact copyUntilLoop_reaches s D k (m + 1) (by omega) (by omega)
      (fun q h1 h2 => hno q (by omega) (by omega)) hocc'

/-- When the delimiter never occurs past the buffer boundary, the loop
runs to end-of-data and reports the whole stream as consumed. -/
lemma copyUntilLoop_eof (s D : List Nat) :
    ∀ k m, s.length = m + k → D.length ≤ m + 1 →
      (∀ q, m < q → q ≤ s.length → ¬ occursEndingAt s D q) →
      copyUntilLoop D (s.take m) (s.drop m) m = ScanResult.ok s.length s []
  | 0, m => by
    intro hlen hD hno
    have hm : m = s.length := by omega
    rw [hm, List.take_length, List.drop_length]
    simp only [copyUntilLoop]
  | k + 1, m => by
    intro hlen hD hno
    have hm : m < s.length := by omega
    rw [List.drop_eq_getElem_cons hm]
    simp only [copyUntilLoop]
    rw [← take_succ_eq_append hm]
    rw [length_take_of_le (by omega : m + 1 ≤ s.length)]
    rw [if_neg (by omega : ¬ (m + 1 < D.length))]
    have hnomatch : ¬ ((s.take (m + 1)).drop (m + 1 - D.length) = D) := by
      intro heq
      exact hno (m + 1) (by omega) (by omega) ⟨hD, by omega, heq⟩
    rw [if_neg hnomatch]
    exact copyUntilLoop_eof s D k (m + 1) (by omega) (by omega)
      (fun q h1 h2 => hno q (by omega) h2)

/-- A stream that opens with the CRLF-CRLF terminator and then carries
ten more bytes: the single occurrence of the delimiter ends at offset 4,
inside the 10-byte probe. -/
def probeMissStream : List Nat :=
  [13, 10, 13, 10, 104, 101, 108, 108, 111, 119, 111, 114, 108, 100]

/-- Claim C1, counterexample: the stream `probeMissStream` contains
exactly one occurrence of the CRLF-CRLF delimiter, ending at offset 4,
yet `copy_until` consumes and writes all 14 bytes and returns 14 - the
probe swallowed the occurrence without a tail check, so the scan missed
it and ran to end-of-data instead of stopping at the delimiter. -/
theorem copy_until_misses_occurrence_inside_probe :
    uniqueOccEndingAt probeMissStream CR_LF_2 4 ∧
      copyUntil probeMissStream CR_LF_2 = ScanResult.ok 14 probeMissStream [] ∧
      (14 : Nat) ≠ 4 := by
  refine ⟨(uniqueOcc_iff _ _ _).mpr (by decide), by decide, by decide⟩

/-- Claim C1 (amended): for a delimiter of length at most 11 and a stream
whose unique occurrence of the delimiter ends past the 10-byte probe,
`copy_until` writes exactly the bytes up to and including that occurrence
to the sink, leaves the remaining bytes unconsumed, and returns a count
equal to the length written. -/
theorem copy_until_stops_at_unique_occurrence_past_probe
    (s D : List Nat) (p : Nat) (hne : D ≠ []) (hD : D.length ≤ 11)
    (hp : 11 ≤ p) (hu : uniqueOccEndingAt s D p) :
    copyUntil s D = ScanResult.ok p (s.take p) (s.drop p) ∧
      (s.take p).length = p := by
  have hps : p ≤ s.length := occursEndingAt_le_length hu.1
  have hmin : min 10 s.length = 10 := by omega
  constructor
  · unfold copyUntil
    rw [hmin]
    have e : p = 10 + (p - 11) + 1 := by omega
    rw [e]
    exact copyUntilLoop_reaches s D (p - 11) 10 (by omega) (by omega)
      (fun q h1 h2 hq => by have hqp := hu.2 q hq; omega)
      (by rw [← e]; exact hu.1)
  · exact length_take_of_le hps

/-- Eleven padding bytes, then the one-byte delimiter 7, then two
trailing bytes: the unique occurrence ends at offset 12, past the probe. -/
def pastProbeStream : List Nat := [0, 0, 0, 0, 0, 0, 0, 0, 0, 0, 0, 7, 8, 9]

/-- Claim C1, witness: on `pastProbeStream` with delimiter `[7]` the scan
stops at offset 12, writing the first 12 bytes and leaving `[8, 9]`. -/
theorem copy_until_stops_at_unique_occurrence_past_probe_witness :
    copyUntil pastProbeStream [7] =
      ScanResult.ok 12 (pastProbeStream.take 12) (pastProbeStream.drop 12) ∧
      (pastProbeStream.take 12).length = 12 :=
  copy_until_stops_at_unique_occurrence_past_probe pastProbeStream [7] 12
    (by decide) (by decide) (by decide) ((uniqueOcc_iff _ _ _).mpr (by decide))

/-- Claim C2, counterexample: on a 12-byte stream with a 12-byte
delimiter, the first tail comparison runs with only 11 bytes accumulated
and the slice `&buf[(buf.len() - val.len())..]` indexes out of bounds -
the scan panics instead of letting the comparison fail and continuing. -/
theorem copy_until_panics_on_long_delimiter :
    copyUntil (List.replicate 12 0) (List.replicate 12 1) = ScanResult.panicked ∧
      (List.replicate 12 1 : List Nat) ≠ [] := by
  decide

/-- Claim C2 (amended): the tail comparison slices out of bounds (a
panic) exactly when it ever runs on a buffer shorter than the delimiter,
which happens precisely when the stream is longer than the 10-byte probe
and the delimiter is longer than 11 bytes; for any delimiter of length at
most 11 - in particular the 4-byte header terminator - the comparison is
always in bounds and the scan never panics. -/
theorem copy_until_panic_characterization (s D : List Nat) :
    copyUntil s D = ScanResult.panicked ↔ 10 < s.length ∧ 11 < D.length := by
  constructor
  · intro h
    by_contra hc
    push_neg at hc
    by_cases hs : s.length ≤ 10
    · have hmin : min 10 s.length = s.length := by omega
      unfold copyUntil at h
      rw [hmin, List.drop_length] at h
      simp [copyUntilLoop] at h
    · have hD : D.length ≤ 11 := by have := hc (by omega); omega
      unfold copyUntil at h
      have hmin : min 10 s.length = 10 := by omega
      rw [hmin] at h
      exact copyUntilLoop_no_panic D (s.drop 10) (s.take 10) 10
        (by rw [length_take_of_le (by omega : (10 : Nat) ≤ s.length)]; omega) h
  · rintro ⟨hs, hD⟩
    unfold copyUntil
    have hmin : min 10 s.length = 10 := by omega
    rw [hmin]
    obtain ⟨b, t, hbt⟩ := List.exists_cons_of_ne_nil
      (show s.drop 10 ≠ [] by rw [Ne, List.drop_eq_nil_iff]; omega)
    rw [hbt]
    simp only [copyUntilLoop]
    rw [if_pos (by simp [length_take_of_le (by omega : (10 : Nat) ≤ s.length)]; omega)]

/-- Claim C2, witness: a 12-byte stream and 13-byte delimiter panic. -/
theorem copy_until_panic_characterization_witness :
    copyUntil (List.replicate 12 5) (List.replicate 13 6) = ScanResult.panicked :=
  (copy_until_panic_characterization (List.replicate 12 5)
    (List.replicate 13 6)).mpr (by decide)

/-- The ASCII bytes of "hello": no CRLF-CRLF anywhere. -/
def eofStream : List Nat := [104, 101, 108, 108, 111]

/-- Claim C3, counterexample: `eofStream` reaches end-of-data without
ever containing the CRLF-CRLF delimiter, yet `copy_until` returns
success (count 5, the whole stream written) - clean end-of-data is not
reported as an I/O failure, so the scan does return success with no
delimiter found. -/
theorem copy_until_succeeds_without_delimiter :
    noOccurrence eofStream CR_LF_2 ∧
      copyUntil eofStream CR_LF_2 = ScanResult.ok 5 eofStream [] := by
  exact ⟨(noOccurrence_iff _ _).mpr (by decide), by decide⟩

/-- Claim C3 (amended): when the source reaches clean end-of-data before
the delimiter has appeared (and the tail comparison stays in bounds:
delimiter at most 11 bytes, or stream within the probe), `copy_until`
returns success with the entire stream written and its full length as the
count; only an I/O error raised by the underlying reads would surface as
a failure, not the absence of the delimiter itself. -/
theorem copy_until_clean_eof_returns_success (s D : List Nat) (hne : D ≠ [])
    (hsafe : D.length ≤ 11 ∨ s.length ≤ 10) (hno : noOccurrence s D) :
    copyUntil s D = ScanResult.ok s.length s [] := by
  by_cases hs : s.length ≤ 10
  · unfold copyUntil
    have hmin : min 10 s.length = s.length := by omega
    rw [hmin, List.drop_length, List.take_length]
    simp only [copyUntilLoop]
  · have hD : D.length ≤ 11 := by
      rcases hsafe with h | h
      · exact h
      · omega
    unfold copyUntil
    have hmin : min 10 s.length = 10 := by omega
    rw [hmin]
    exact copyUntilLoop_eof s D (s.length - 10) 10 (by omega) (by omega)
      (fun q h1 h2 => hno q)

/-- Claim C3, witness: the one-byte delimiter-free stream `[120]`. -/
theorem copy_until_clean_eof_returns_success_witness :
    copyUntil [120] CR_LF_2 =
      ScanResult.ok ([120] : List Nat).length [120] [] :=
  copy_until_clean_eof_returns_success [120] CR_LF_2 (by decide)
    (Or.inl (by decide)) ((noOccurrence_iff _ _).mpr (by decide))

/-- Claim C10 (confirmed): every successful run of `copy_until` returns a
count equal to the number of bytes written, and the bytes written are
exactly the first `n` bytes consumed from the source, in order, with the
unconsumed suffix left on the source - whether or not the delimiter was
matched. -/
theorem copy_until_count_matches_written (s D : List Nat) (hne : D ≠ [])
    (n : Nat) (out rem : List Nat)
    (h : copyUntil s D = ScanResult.ok n out rem) :
    out = s.take n ∧ out.length = n ∧ rem = s.drop n := by
  obtain ⟨_, h1, h2, h3⟩ := copyUntil_ok_spec h
  exact ⟨h1, h3, h2⟩

/-- Claim C10, witness: the probe consumes the delimiter of
`probeMissStream`-like shape; here the unmatched run over `[1, 2, 3]`
with delimiter `[2]` still reports count = length written = 3. -/
theorem copy_until_count_matches_written_witness :
    ([1, 2, 3] : List Nat) = ([1, 2, 3] : List Nat).take 3 ∧
      ([1, 2, 3] : List Nat).length = 3 ∧
      ([] : List Nat) = ([1, 2, 3] : List Nat).drop 3 :=
  copy_until_count_matches_written [1, 2, 3] [2] (by decide) 3 [1, 2, 3] []
    (by decide)

/-- Embeds the `Method` enum of `src/request.rs`. -/
inductive Method where
  | GET
  | HEAD
  | POST
  | PUT
  | DELETE
  | OPTIONS
  | PATCH
deriving DecidableEq

/-- Embeds the `Display` implementation for `Method`: the canonical
uppercase wire token. -/
def Method.fmt : Method → String
  | Method.GET => "GET"
  | Method.HEAD => "HEAD"
  | Method.POST => "POST"
  | Method.PUT => "PUT"
  | Method.DELETE => "DELETE"
  | Method.OPTIONS => "OPTIONS"
  | Method.PATCH => "PATCH"

/-- Modelled from the spec: the `Uri` collaborator (the uri module is not
part of the verified file); it exposes the scheme, the optional host, the
scheme-appropriate `corr_port` and the `resource` path. -/
structure Uri where
  scheme : String
  host : Option String
  corr_port : Nat
  resource : String
deriving DecidableEq

/-- Lookup in an association list of header pairs. -/
def headersLookup : List (String × String) → String → Option String
  | [], _ => none
  | kv :: rest, key => if kv.1 = key then some kv.2 else headersLookup rest key

/-- Insert-or-overwrite in an association list of header pairs: the entry
with the same key, if any, is replaced in place; otherwise the new pair
is appended. -/
def headersInsertPair :
    List (String × String) → String → String → List (String × String)
  | [], k, v => [(k, v)]
  | kv :: rest, k, v =>
    if kv.1 = k then (k, v) :: rest else kv :: headersInsertPair rest k v

/-- Modelled from the spec: the `Headers` collection of the response
module - ordered iteration as (key, value) pairs, insert/overwrite of a
single key without touching the rest, wholesale replacement, and
URI-derived default population. -/
structure Headers where
  pairs : List (String × String)
deriving DecidableEq

/-- Ordered iteration over the collection, yielding (key, value) pairs. -/
def Headers.iter (hs : Headers) : List (String × String) := hs.pairs

/-- Modelled from the spec: `Headers::insert`. -/
def Headers.insert (hs : Headers) (k v : String) : Headers :=
  { pairs := headersInsertPair hs.pairs k v }

/-- Lookup of the value stored under a key. -/
def Headers.get (hs : Headers) (key : String) : Option String :=
  headersLookup hs.pairs key

/-- Modelled from the spec: `Headers::default_http`, the URI-derived
default headers (for example Host and Referer). -/
def Headers.default_http (u : Uri) : Headers :=
  { pairs :=
      [("Host", u.host.getD ""),
       ("Referer", u.scheme ++ "://" ++ u.host.getD "" ++ u.resource)] }

/-- The single-key insert behaves as lookup expects: the inserted key now
maps to the new value and every other key reads exactly as before. -/
lemma headersLookup_insertPair (l : List (String × String)) (k v key : String) :
    headersLookup (headersInsertPair l k v) key =
      if k = key then some v else headersLookup l key := by
  induction l with
  | nil =>
    by_cases h : k = key
    · simp [headersInsertPair, headersLookup, h]
    · simp [headersInsertPair, headersLookup, h]
  | cons kv rest ih =>
    by_cases h1 : kv.1 = k
    · by_cases h2 : k = key
      · simp [headersInsertPair, headersLookup, h1, h2]
      · simp [headersInsertPair, headersLookup, h1, h2]
    · by_cases h2 : kv.1 = key
      · have h3 : ¬ (k = key) := by
          intro e
          apply h1
          rw [h2, e]
        have h4 : ¬ (key = k) := fun e => h3 e.symm
        simp [headersInsertPair, headersLookup, h1, h2, h3, h4]
      · simp [headersInsertPair, headersLookup, h1, h2, ih]

/-- Lifts `headersLookup_insertPair` to the collection. -/
lemma Headers.get_insert (hs : Headers) (k v key : String) :
    Headers.get (Headers.insert hs k v) key =
      if k = key then some v else Headers.get hs key :=
  headersLookup_insertPair hs.pairs k v key

/-- Embeds the `RequestBuilder` struct of `src/request.rs`.  The borrowed
URI and body slice become plain values; the body stays optional and the
message is modelled at the character level. -/
structure RequestBuilder where
  uri : Uri
  method : Method
  version : String
  headers : Headers
  body : Option String
deriving DecidableEq

/-- Embeds `RequestBuilder::new`: URI-derived default headers, method
GET, the `HTTP_V` version constant and no body. -/
def RequestBuilder.new (uri : Uri) : RequestBuilder :=
  { headers := Headers.default_http uri
    uri := uri
    method := Method.GET
    version := HTTP_V
    body := none }

/-- Embeds `RequestBuilder::method` (the setter; renamed because `method`
names the field here). -/
def RequestBuilder.setMethod (b : RequestBuilder) (m : Method) : RequestBuilder :=
  { b with method := m }

/-- Embeds `RequestBuilder::headers`, the wholesale replacement (renamed
because `headers` names the field here). -/
def RequestBuilder.setHeaders (b : RequestBuilder) (hs : Headers) : RequestBuilder :=
  { b with headers := hs }

/-- Embeds `RequestBuilder::header`, the single add/override delegated to
the collection's insert. -/
def RequestBuilder.addHeader (b : RequestBuilder) (k v : String) : RequestBuilder :=
  { b with headers := Headers.insert b.headers k v }

/-- Embeds `RequestBuilder::body`. -/
def RequestBuilder.setBody (b : RequestBuilder) (body : String) : RequestBuilder :=
  { b with body := some body }

/-- Embeds `RequestBuilder::parse_msg`: format the request line, collect
one `key: value` line per header in iteration order, terminate the
header block with a blank line, then extend with the body verbatim when
one is set. -/
def RequestBuilder.parse_msg (b : RequestBuilder) : String :=
  let request_line :=
    Method.fmt b.method ++ " " ++ b.uri.resource ++ " " ++ b.version ++ CR_LF
  let headers :=
    String.join ((Headers.iter b.headers).map (fun kv => kv.1 ++ ": " ++ kv.2 ++ CR_LF))
  let request_msg := request_line ++ headers ++ CR_LF
  match b.body with
  | some bb => request_msg ++ bb
  | none => request_msg

/-- Follows the spec's words: the request line
`<METHOD> <resource-path> <version>\r\n`. -/
def specRequestLine (b : RequestBuilder) : String :=
  Method.fmt b.method ++ " " ++ b.uri.resource ++ " " ++ b.version ++ "\r\n"

/-- Follows the spec's words: one `<key>: <value>\r\n` line per header in
the collection's iteration order. -/
def specHeaderLines (b : RequestBuilder) : List String :=
  (Headers.iter b.headers).map (fun kv => kv.1 ++ ": " ++ kv.2 ++ "\r\n")

/-- Follows the spec's words: the body bytes verbatim if a body is set,
nothing otherwise. -/
def specBody (b : RequestBuilder) : String :=
  match b.body with
  | some bb => bb
  | none => ""

/-- Follows the spec's words for the whole wire message: request line,
header lines, a blank line, then the body - and nothing else: no
automatic Content-Length, no extra framing. -/
def specRequestMessage (b : RequestBuilder) : String :=
  specRequestLine b ++ String.join (specHeaderLines b) ++ "\r\n" ++ specBody b

/-- Claim C5 (confirmed): `parse_msg` produces exactly the spec's
message - request line, then each header line in the collection's
iteration order, then a blank line, then the body verbatim when present,
with no additional framing. -/
theorem parse_msg_eq_spec_message (b : RequestBuilder) :
    b.parse_msg = specRequestMessage b := by
  unfold RequestBuilder.parse_msg specRequestMessage specRequestLine
    specHeaderLines specBody CR_LF
  cases hb : b.body with
  | none => simp [String.append_assoc, String.append_empty]
  | some bb => simp [String.append_assoc]

/-- Embeds the `&self` receiver of `parse_msg` explicitly: a call returns
its message alongside the builder state it leaves behind, which is the
state it was given. -/
def RequestBuilder.parse_msg_st (b : RequestBuilder) : String × RequestBuilder :=
  (b.parse_msg, b)

/-- Repeated invocation of `parse_msg`, threading the builder state left
by each call into the next call. -/
def RequestBuilder.parse_msg_iter (b : RequestBuilder) :
    Nat → List String × RequestBuilder
  | 0 => ([], b)
  | n + 1 =>
    (b.parse_msg_st.1 :: (RequestBuilder.parse_msg_iter b.parse_msg_st.2 n).1,
      (RequestBuilder.parse_msg_iter b.parse_msg_st.2 n).2)

/-- Claim C9 (confirmed): `parse_msg` is a pure function of the builder
state - invoking it any number of times leaves the builder unchanged and
yields the identical message every time. -/
theorem parse_msg_pure_and_idempotent (b : RequestBuilder) (n : Nat) :
    b.parse_msg_iter n = (List.replicate n b.parse_msg, b) := by
  induction n with
  | zero => rfl
  | succ n ih =>
    simp [RequestBuilder.parse_msg_iter, RequestBuilder.parse_msg_st, ih,
      List.replicate_succ]

/-- Claim C7 (confirmed): the wholesale replacement installs exactly the
new header set whatever was there before, the single add/override changes
at most the entry under its own key and reads back unchanged under every
other key, and neither operation touches the uri, method, version or
body. -/
theorem headers_replace_and_header_insert_frame
    (b : RequestBuilder) (hs : Headers) (k v key : String) :
    (b.setHeaders hs).headers = hs ∧
      (b.setHeaders hs).uri = b.uri ∧
      (b.setHeaders hs).method = b.method ∧
      (b.setHeaders hs).version = b.version ∧
      (b.setHeaders hs).body = b.body ∧
      Headers.get (b.addHeader k v).headers key =
        (if k = key then some v else Headers.get b.headers key) ∧
      (b.addHeader k v).uri = b.uri ∧
      (b.addHeader k v).method = b.method ∧
      (b.addHeader k v).version = b.version ∧
      (b.addHeader k v).body = b.body :=
  ⟨rfl, rfl, rfl, rfl, rfl, Headers.get_insert b.headers k v key,
    rfl, rfl, rfl, rfl⟩

/-- Embeds the `Request` struct of `src/request.rs`: one inner builder,
nothing else. -/
structure Request where
  inner : RequestBuilder
deriving DecidableEq

/-- Embeds `Request::new`: seed an inner builder, then immediately set
`Connection: Close`. -/
def Request.new (uri : Uri) : Request :=
  { inner := RequestBuilder.addHeader (RequestBuilder.new uri) "Connection" "Close" }

/-- Embeds `Request::headers`, delegating the wholesale replacement to
the inner builder. -/
def Request.headers (r : Request) (hs : Headers) : Request :=
  { inner := r.inner.setHeaders hs }

/-- Embeds `Request::header`, delegating the single add/override to the
inner builder. -/
def Request.header (r : Request) (k v : String) : Request :=
  { inner := r.inner.addHeader k v }

/-- Embeds `Request::set_method`, delegating to the inner builder. -/
def Request.set_method (r : Request) (m : Method) : Request :=
  { inner := r.inner.setMethod m }

/-- A header operation available on a `Request`: a single add/override or
a wholesale replacement. -/
inductive HeaderOp where
  | add (k v : String)
  | replace (hs : Headers)

/-- Applies one header operation to a `Request` through the struct's own
two header methods. -/
def Request.applyHeaderOp (r : Request) : HeaderOp → Request
  | HeaderOp.add k v => r.header k v
  | HeaderOp.replace hs => r.headers hs

/-- An operation that does not explicitly override the connection-closing
default: an add/override of some key other than `Connection`, or a
wholesale replacement whose new set itself carries `Connection: Close`. -/
def HeaderOp.keepsConnectionClose : HeaderOp → Prop
  | HeaderOp.add k _ => k ≠ "Connection"
  | HeaderOp.replace hs => Headers.get hs "Connection" = some "Close"

/-- Folding header operations preserves any `Connection: Close` entry as
long as no operation explicitly overrides it. -/
lemma connection_close_preserved_fold (ops : List HeaderOp) :
    ∀ r : Request, (∀ op ∈ ops, op.keepsConnectionClose) →
      Headers.get r.inner.headers "Connection" = some "Close" →
      Headers.get (List.foldl Request.applyHeaderOp r ops).inner.headers
        "Connection" = some "Close" := by
  induction ops with
  | nil =>
    intro r _ hr
    simpa using hr
  | cons op rest ih =>
    intro r hops hr
    simp only [List.foldl_cons]
    apply ih
    · intro o ho
      exact hops o (List.mem_cons_of_mem _ ho)
    · cases op with
      | add k v =>
        have hk : k ≠ "Connection" :=
          hops (HeaderOp.add k v) (List.mem_cons_self _ _)
        simp [Request.applyHeaderOp, Request.header, RequestBuilder.addHeader,
          Headers.get_insert, hk, hr]
      | replace hs =>
        have hkeep := hops (HeaderOp.replace hs) (List.mem_cons_self _ _)
        simpa [Request.applyHeaderOp, Request.headers,
          RequestBuilder.setHeaders] using hkeep

/-- Claim C6 (confirmed): a freshly constructed `Request` carries
`Connection: Close`, and the entry is still present after any sequence of
header operations none of which explicitly overrides it (inserts under
other keys, or replacements that retain the entry). -/
theorem request_new_connection_close_persistent (u : Uri) (ops : List HeaderOp)
    (h : ∀ op ∈ ops, op.keepsConnectionClose) :
    Headers.get
      (List.foldl Request.applyHeaderOp (Request.new u) ops).inner.headers
      "Connection" = some "Close" := by
  apply connection_close_preserved_fold ops (Request.new u) h
  simp [Request.new, RequestBuilder.addHeader, Headers.get_insert]

/-- A concrete URI shared by the witnesses below. -/
def exampleUri : Uri :=
  { scheme := "http", host := some "example.com", corr_port := 80, resource := "/" }

/-- Claim C6, witness: after construction and an unrelated header insert,
the `Connection: Close` entry is still read back. -/
theorem request_new_connection_close_persistent_witness :
    Headers.get
      (List.foldl Request.applyHeaderOp (Request.new exampleUri)
        [HeaderOp.add "Accept" "text/html"]).inner.headers
      "Connection" = some "Close" :=
  request_new_connection_close_persistent exampleUri
    [HeaderOp.add "Accept" "text/html"]
    (fun op hop => by
      simp only [List.mem_singleton] at hop
      subst hop
      exact (by decide : ("Accept" : String) ≠ "Connection"))

/-- Modelled from the spec: the `Response` collaborator - constructible
from a raw header-block byte buffer (that parser stays an arbitrary
parameter below, since it may fail on malformed input) and exposing a
numeric status code. -/
structure Response where
  status_code : Nat
deriving DecidableEq

/-- Failures a send can surface on an in-memory stream: the scanner's
slice panic, or a protocol error from the header-block parser. -/
inductive SendError where
  | panicked
  | protocol
deriving DecidableEq

/-- Everything observable about one `RequestBuilder::send` run: the
serialized request written to the stream, the header-block bytes captured
by the scanner, the bytes written to the caller's body sink, and the
returned value. -/
structure SendOutcome where
  requestWritten : String
  headBytes : List Nat
  bodySink : List Nat
  result : Except SendError Response

/-- Embeds `RequestBuilder::read_head`: scan the stream up to `CR_LF_2`
into a head buffer and hand that buffer to the response parser; the
unconsumed remainder of the stream is returned alongside. -/
def RequestBuilder.read_head (from_head : List Nat → Option Response)
    (stream : List Nat) : Except SendError (Response × List Nat × List Nat) :=
  match copyUntil stream CR_LF_2 with
  | ScanResult.panicked => Except.error SendError.panicked
  | ScanResult.ok _ head rest =>
    match from_head head with
    | none => Except.error SendError.protocol
    | some res => Except.ok (res, head, rest)

/-- Embeds `RequestBuilder::send`: write the serialized message to the
stream, read the response head, then - unless the method is HEAD - copy
every remaining stream byte into the caller's sink until end-of-data. -/
def RequestBuilder.send (b : RequestBuilder)
    (from_head : List Nat → Option Response) (stream : List Nat) : SendOutcome :=
  match RequestBuilder.read_head from_head stream with
  | Except.error e =>
    { requestWritten := b.parse_msg, headBytes := [], bodySink := [],
      result := Except.error e }
  | Except.ok (res, head, rest) =>
    if b.method = Method.HEAD then
      { requestWritten := b.parse_msg, headBytes := head, bodySink := [],
        result := Except.ok res }
    else
      { requestWritten := b.parse_msg, headBytes := head, bodySink := rest,
        result := Except.ok res }

/-- Reduction of `read_head` once the scan result is known. -/
lemma read_head_scan_ok (from_head : List Nat → Option Response)
    (stream : List Nat) {n : Nat} {head rest : List Nat}
    (h : copyUntil stream CR_LF_2 = ScanResult.ok n head rest) :
    RequestBuilder.read_head from_head stream =
      match from_head head with
      | none => Except.error SendError.protocol
      | some res => Except.ok (res, head, rest) := by
  unfold RequestBuilder.read_head
  rw [h]

/-- Claim C4 (confirmed): a HEAD send never writes a byte to the caller's
body sink, whatever the stream holds after the header terminator; a send
with any other method that returns success streams into the sink exactly
the bytes the header scan left unconsumed - every remaining stream byte
to end-of-data. -/
theorem send_head_writes_no_body_and_other_methods_stream_rest
    (b : RequestBuilder) (from_head : List Nat → Option Response)
    (stream : List Nat) :
    (b.method = Method.HEAD → (b.send from_head stream).bodySink = []) ∧
      (b.method ≠ Method.HEAD →
        ∀ res, (b.send from_head stream).result = Except.ok res →
          ∀ n w r, copyUntil stream CR_LF_2 = ScanResult.ok n w r →
            (b.send from_head stream).bodySink = r ∧
              (b.send from_head stream).bodySink = stream.drop n) := by
  constructor
  · intro hm
    unfold RequestBuilder.send
    cases hrh : RequestBuilder.read_head from_head stream with
    | error e => rfl
    | ok t =>
      obtain ⟨res, head, rest⟩ := t
      simp [hm]
  · intro hm res hres n w r hscan
    have hrh := read_head_scan_ok from_head stream hscan
    cases hfh : from_head w with
    | none =>
      rw [hfh] at hrh
      unfold RequestBuilder.send at hres
      rw [hrh] at hres
      simp at hres
    | some res0 =>
      rw [hfh] at hrh
      unfold RequestBuilder.send
      rw [hrh]
      simp only [hm, if_neg hm]
      obtain ⟨_, _, hrd, _⟩ := copyUntil_ok_spec hscan
      exact ⟨rfl, hrd⟩

/-- The HEAD builder used by the witness. -/
def headBuilder : RequestBuilder :=
  (RequestBuilder.new exampleUri).setMethod Method.HEAD

/-- The GET builder used by the witness. -/
def getBuilder : RequestBuilder := RequestBuilder.new exampleUri

/-- A header parser that accepts anything, standing in for a well-formed
response head. -/
def constParse : List Nat → Option Response :=
  fun _ => some { status_code := 200 }

/-- Seven padding bytes, the CRLF-CRLF terminator ending at offset 11,
then two body bytes. -/
def bodyStream : List Nat := [88, 88, 88, 88, 88, 88, 88, 13, 10, 13, 10, 66, 66]

/-- Claim C4, witness: on the same stream the HEAD send leaves the sink
empty while the GET send streams the two post-terminator bytes. -/
theorem send_head_writes_no_body_witness :
    (headBuilder.send constParse bodyStream).bodySink = [] ∧
      (getBuilder.send constParse bodyStream).bodySink = [66, 66] := by
  constructor
  · exact (send_head_writes_no_body_and_other_methods_stream_rest headBuilder
      constParse bodyStream).1 rfl
  · exact ((send_head_writes_no_body_and_other_methods_stream_rest getBuilder
      constParse bodyStream).2 (by decide) { status_code := 200 } rfl
      11 [88, 88, 88, 88, 88, 88, 88, 13, 10, 13, 10] [66, 66] (by decide)).1

/-- What `Request::send` decides before delegating: the address handed to
the TCP connect and whether the plaintext stream gets wrapped in TLS. -/
structure SendPlan where
  connectHost : String
  connectPort : Nat
  tls : Bool
deriving DecidableEq

/-- Embeds `Request::send`: connect to `(host.unwrap_or(""), corr_port)`,
then branch on string equality of the scheme with `"https"` - wrapping
the connection in TLS exactly in that branch - and delegate the exchange
to the inner builder either way. -/
def Request.send (r : Request) (from_head : List Nat → Option Response)
    (stream : List Nat) : SendPlan × SendOutcome :=
  if r.inner.uri.scheme = "https" then
    ({ connectHost := r.inner.uri.host.getD "",
       connectPort := r.inner.uri.corr_port, tls := true },
      r.inner.send from_head stream)
  else
    ({ connectHost := r.inner.uri.host.getD "",
       connectPort := r.inner.uri.corr_port, tls := false },
      r.inner.send from_head stream)

/-- Claim C8 (confirmed): `Request::send` wraps the connection in TLS
exactly when the URI scheme equals the string `"https"`, resolves the
connect host to the empty string when the URI has no host (leaving the
failure to connect time), and delegates to the inner builder's send in
both branches. -/
theorem request_send_transport_selection (r : Request)
    (from_head : List Nat → Option Response) (stream : List Nat) :
    ((r.send from_head stream).1.tls = true ↔ r.inner.uri.scheme = "https") ∧
      (r.inner.uri.host = none →
        (r.send from_head stream).1.connectHost = "") ∧
      (r.send from_head stream).2 = r.inner.send from_head stream := by
  unfold Request.send
  by_cases h : r.inner.uri.scheme = "https"
  · rw [if_pos h]
    exact ⟨⟨fun _ => h, fun _ => rfl⟩, fun hh => by simp [hh], rfl⟩
  · rw [if_neg h]
    exact ⟨by simp [h], fun hh => by simp [hh], rfl⟩

/-- An https URI with no host at all. -/
def hostlessUri : Uri :=
  { scheme := "https", host := none, corr_port := 443, resource := "/" }

/-- The request the transport-selection witness sends. -/
def hostlessRequest : Request := Request.new hostlessUri

/-- Claim C8, witness: the hostless https request resolves an empty
connect host and selects the TLS wrap. -/
theorem request_send_transport_selection_witness :
    (hostlessRequest.send constParse []).1.connectHost = "" ∧
      (hostlessRequest.send constParse []).1.tls = true :=
  ⟨(request_send_transport_selection hostlessRequest constParse []).2.1 rfl,
    (request_send_transport_selection hostlessRequest constParse []).1.mpr rfl⟩
